import Mathlib

/-!
Verification of the ApiGateway core engine (Go sources under
`src/server/go`, gateway entry point `src/server/go/cmd/gateway/main.go`).

The Go code is shallowly embedded: Go `float64` values (token counts,
latencies, rates) are modelled as exact rationals `ℚ`, Go `int`/`int64`
counters as `Nat` or `Int`, Go maps as association lists, and wall-clock
time (`time.Now()`) as an explicit parameter threaded through each call.
-/

set_option autoImplicit false

namespace ApiGateway

/-! ### Association lists, standing in for Go maps -/

/-- Lookup in an association list, the model of Go map indexing. -/
def alookup {α β : Type} [DecidableEq α] : List (α × β) → α → Option β
  | [], _ => none
  | (k, v) :: rest, key => if k = key then some v else alookup rest key

/-- Insert or replace in an association list, the model of Go map assignment. -/
def ainsert {α β : Type} [DecidableEq α] : List (α × β) → α → β → List (α × β)
  | [], key, val => [(key, val)]
  | (k, v) :: rest, key, val =>
      if k = key then (k, val) :: rest else (k, v) :: ainsert rest key val

/-! ### Route table (`config.go` / `main.go`) -/

/-- Embedding of the `Route` struct (main.go lines 18-28). -/
structure Route where
  id : Int
  path : String
  target : String
  methods : List String
  rateLimit : Int
  timeout : Int
  authRequired : Bool
  active : Bool
deriving Repr, DecidableEq

/-- Embedding of the gateway `Config` struct (main.go lines 30-43); only the
fields the verified operations read are kept. -/
structure Config where
  enableRateLimit : Bool
  defaultRateLimit : Int
  defaultTimeout : Int
  routes : List Route
deriving Repr, DecidableEq

/-- Embedding of `pathMatches` (main.go lines 356-371): exact equality, or the
route path followed by `/` is a prefix of the request path. -/
def pathMatches (requestPath routePath : String) : Bool :=
  requestPath == routePath
    || List.isPrefixOf (routePath ++ "/").data requestPath.data

/-- Embedding of `Config.findRouteByPath` (main.go lines 333-354): scan the
routes in registration order, skip inactive ones, and return the first whose
path matches and whose method list contains the method or `"*"`. -/
def findRouteByPath (routes : List Route) (path method : String) : Option Route :=
  match routes with
  | [] => none
  | route :: rest =>
      if route.active && pathMatches path route.path
          && route.methods.any (fun m => m == "*" || m == method) then
        some route
      else
        findRouteByPath rest path method

/-! ### Token-bucket rate limiter (`main.go` lines 639-724, duplicated in the
unnamed ratelimiter source file) -/

/-- Embedding of the `TokenBucket` struct (main.go lines 90-97).  `tokens`,
`capacity` and `refillRate` are Go `float64`; `lastRefillTime` is wall-clock
seconds. -/
structure TokenBucket where
  tokens : ℚ
  capacity : ℚ
  refillRate : ℚ
  lastRefillTime : ℚ
deriving Repr, DecidableEq

/-- Embedding of `TokenBucket.takeToken` (main.go lines 699-724): refill by
elapsed seconds times the refill rate, cap at capacity, advance
`lastRefillTime`, then reject when under one token, otherwise consume one. -/
def takeToken (tb : TokenBucket) (now : ℚ) : Bool × TokenBucket :=
  let elapsed := now - tb.lastRefillTime
  let t1 := tb.tokens + elapsed * tb.refillRate
  let t2 := if t1 > tb.capacity then tb.capacity else t1
  if t2 < 1 then
    (false, { tb with tokens := t2, lastRefillTime := now })
  else
    (true, { tb with tokens := t2 - 1, lastRefillTime := now })

/-- Embedding of the `RateLimiter` struct (main.go lines 83-88): the shared
gateway config plus the per-path bucket map. -/
structure RateLimiter where
  config : Config
  buckets : List (String × TokenBucket)
deriving Repr, DecidableEq

/-- Embedding of `RateLimiter.getBucket` (main.go lines 667-696): return the
existing bucket for `path`, or create one holding `rateLimit` tokens with
capacity `rateLimit` and refill rate `capacity / 60`. -/
def getBucket (rl : RateLimiter) (path : String) (rateLimit : Int) (now : ℚ) :
    TokenBucket × RateLimiter :=
  match alookup rl.buckets path with
  | some b => (b, rl)
  | none =>
      let capacity : ℚ := (rateLimit : ℚ)
      let b : TokenBucket :=
        { tokens := capacity
          capacity := capacity
          refillRate := capacity / 60
          lastRefillTime := now }
      (b, { rl with buckets := ainsert rl.buckets path b })

/-- Embedding of `RateLimiter.allow` (main.go lines 648-664): short-circuit
when rate limiting is disabled, substitute the default limit for a
non-positive one, fetch or create the bucket, and try to take a token.  The
in-place mutation of the bucket through its pointer is modelled by writing
the updated bucket back into the map. -/
def allow (rl : RateLimiter) (path : String) (rateLimit : Int) (now : ℚ) :
    Bool × RateLimiter :=
  if !rl.config.enableRateLimit then
    (true, rl)
  else
    let limit := if rateLimit ≤ 0 then rl.config.defaultRateLimit else rateLimit
    let br := getBucket rl path limit now
    let ob := takeToken br.fst now
    (ob.fst, { br.snd with buckets := ainsert br.snd.buckets path ob.snd })

/-- Token level after the refill-and-clamp phase of `takeToken`, written the
way the spec describes it: elapsed seconds times refill rate, clamped to
capacity. -/
def refilledLevel (tb : TokenBucket) (now : ℚ) : ℚ :=
  min (tb.tokens + (now - tb.lastRefillTime) * tb.refillRate) tb.capacity

/-- Well-formedness of a token bucket: the fill level is between zero and the
capacity, and the refill rate is non-negative.  Buckets created by
`getBucket` satisfy this whenever the (defaulted) limit is positive. -/
def WFBucket (tb : TokenBucket) : Prop :=
  0 ≤ tb.tokens ∧ tb.tokens ≤ tb.capacity ∧ 0 ≤ tb.refillRate

/-- Well-formedness of the rate limiter at time `t0`: the configured default
limit is positive, and every bucket is well formed with its last refill no
later than `t0`. -/
def WFLimiter (t0 : ℚ) (rl : RateLimiter) : Prop :=
  1 ≤ rl.config.defaultRateLimit ∧
    ∀ p b, alookup rl.buckets p = some b → WFBucket b ∧ b.lastRefillTime ≤ t0

/-- Run a finite sequence of `allow` calls; each element carries the path,
the configured limit, and the wall-clock time of the call. -/
def runAllows (rl : RateLimiter) : List (String × Int × ℚ) → RateLimiter
  | [] => rl
  | c :: rest => runAllows (allow rl c.fst c.snd.fst c.snd.snd).snd rest

/-- The call times are non-decreasing and start no earlier than `t0`. -/
def timesMono (t0 : ℚ) : List (String × Int × ℚ) → Bool
  | [] => true
  | c :: rest => decide (t0 ≤ c.snd.snd) && timesMono c.snd.snd rest

/-- Route-matching predicate written from the spec's words: the route is
active, its configured path equals the request path or is a prefix of it
followed by `/`, and its methods set contains the request method or `*`. -/
def specRouteMatch (r : Route) (path method : String) : Bool :=
  r.active
    && (path == r.path || List.isPrefixOf (r.path ++ "/").data path.data)
    && decide ("*" ∈ r.methods ∨ method ∈ r.methods)

/-- The demonstration route of the claim: path `/api/users`,
methods `["GET"]`, active. -/
def demoRoute : Route :=
  { id := 1
    path := "/api/users"
    target := "http://user-service:8080"
    methods := ["GET"]
    rateLimit := 100
    timeout := 30
    authRequired := false
    active := true }

/-! ### Statistics aggregator (`main.go` lines 496-552) -/

/-- Embedding of the `RouteStat` struct (main.go lines 64-69). -/
structure RouteStat where
  requests : Nat
  errors : Nat
  avgLatency : ℚ
deriving Repr, DecidableEq

/-- Embedding of the gateway `Stats` struct (main.go lines 53-62); the route
map is an association list, `activeConnections` and `uptime` are filled in
by `getStats` and not tracked here. -/
structure Stats where
  totalRequests : Nat
  requestsPerSecond : ℚ
  avgResponseTime : ℚ
  errorRate : ℚ
  routeStats : List (String × RouteStat)
deriving Repr, DecidableEq

/-- Initial statistics, as set up by `newProxy` (main.go lines 374-391). -/
def initStats : Stats :=
  { totalRequests := 0
    requestsPerSecond := 0
    avgResponseTime := 0
    errorRate := 0
    routeStats := [] }

/-- Per-route portion of `updateStats` (main.go lines 508-520): increment
the request counter, fold the new latency into the running average with the
incremental-mean formula, and count the error if flagged. -/
def stepRouteStat (rs : RouteStat) (latency : ℚ) (isError : Bool) : RouteStat :=
  let requests' := rs.requests + 1
  { requests := requests'
    errors := if isError then rs.errors + 1 else rs.errors
    avgLatency := (rs.avgLatency * ((requests' : ℚ) - 1) + latency) / (requests' : ℚ) }

/-- Total of the per-route request counters. -/
def sumRequests (l : List (String × RouteStat)) : Nat :=
  (l.map (fun kv => kv.snd.requests)).sum

/-- Total of the per-route error counters. -/
def sumErrors (l : List (String × RouteStat)) : Nat :=
  (l.map (fun kv => kv.snd.errors)).sum

/-- Request-count-weighted sum of the per-route average latencies. -/
def sumWeighted (l : List (String × RouteStat)) : ℚ :=
  (l.map (fun kv => kv.snd.avgLatency * (kv.snd.requests : ℚ))).sum

/-- Embedding of `Proxy.updateStats` (main.go lines 497-534): bump the total
counter, recompute requests/second from `elapsed` seconds since start,
update the route's stat, on error set the gateway `ErrorRate` field to that
route's errors/requests ratio, and recompute the weighted average response
time over all routes. -/
def updateStats (s : Stats) (path : String) (latency : ℚ) (isError : Bool)
    (elapsed : ℚ) : Stats :=
  let total' := s.totalRequests + 1
  let rs := (alookup s.routeStats path).getD ⟨0, 0, 0⟩
  let rs' := stepRouteStat rs latency isError
  let errorRate' :=
    if isError then ((rs'.errors : ℚ) / (rs'.requests : ℚ)) else s.errorRate
  let routeStats' := ainsert s.routeStats path rs'
  let totalAll := sumRequests routeStats'
  { totalRequests := total'
    requestsPerSecond := (total' : ℚ) / elapsed
    avgResponseTime :=
      if 0 < totalAll then sumWeighted routeStats' / (totalAll : ℚ) else 0
    errorRate := errorRate'
    routeStats := routeStats' }

/-- Run a sequence of `updateStats` calls for a single path; each element
carries the latency, the error flag and the elapsed-seconds argument. -/
def runStats (s : Stats) (path : String) : List (ℚ × Bool × ℚ) → Stats
  | [] => s
  | c :: rest => runStats (updateStats s path c.fst c.snd.fst c.snd.snd) path rest

/-- Run a sequence of `updateStats` calls with arbitrary paths; each element
carries the path, the latency, the error flag and the elapsed seconds. -/
def runStatsCalls (s : Stats) : List (String × ℚ × Bool × ℚ) → Stats
  | [] => s
  | c :: rest =>
      runStatsCalls (updateStats s c.fst c.snd.fst c.snd.snd.fst c.snd.snd.snd) rest

/-- Fold of the per-route incremental update over a latency list. -/
def runRouteStat (rs : RouteStat) : List (ℚ × Bool) → RouteStat
  | [] => rs
  | c :: rest => runRouteStat (stepRouteStat rs c.fst c.snd) rest

/-- Invariant of the statistics state: the `ErrorRate` field lies in `[0, 1]`
and every stored route stat has at most as many errors as requests. -/
def WFStats (s : Stats) : Prop :=
  0 ≤ s.errorRate ∧ s.errorRate ≤ 1 ∧
    ∀ kv ∈ s.routeStats, kv.snd.errors ≤ kv.snd.requests

/-! ### Credential store (`config.go` second unit, `Auth` / `Authenticate`)

Go's `strings.Split` on a single-character separator, `strings.SplitN`
with limit 2, and ASCII case folding are embedded as character-list
recursions so that every step is kernel-computable.  The SHA-256 hash
(`hashSecret`) and the standard base64 decoder are opaque cryptographic
primitives; `authenticate` is parameterised over them, so every theorem
below holds for all choices of those two functions. -/

/-- Split a character list at every occurrence of `c`, the model of Go's
`strings.Split` with a one-character separator. -/
def splitCh (c : Char) : List Char → List (List Char)
  | [] => [[]]
  | ch :: rest =>
      let r := splitCh c rest
      if ch == c then [] :: r
      else
        match r with
        | [] => [[ch]]
        | g :: gs => (ch :: g) :: gs

/-- String-level wrapper for `splitCh`. -/
def splitStr (c : Char) (s : String) : List String :=
  (splitCh c s.data).map String.mk

/-- Rejoin groups with `c` between them, used to model the remainder kept
verbatim by Go's `strings.SplitN(s, sep, 2)`. -/
def joinCh (c : Char) : List (List Char) → List Char
  | [] => []
  | [g] => g
  | g :: gs => g ++ c :: joinCh c gs

/-- Model of Go's `strings.SplitN(s, ":", 2)` together with the
`len(creds) != 2` check of `Authenticate`: `none` when `s` has no colon,
otherwise the part before the first colon and the rest verbatim. -/
def splitN2Colon (s : String) : Option (String × String) :=
  match splitCh ':' s.data with
  | [] => none
  | [_] => none
  | x :: rest => some (String.mk x, String.mk (joinCh ':' rest))

/-- ASCII lower-casing of one character, as Go's `strings.ToLower` acts on
the ASCII scheme names compared by `Authenticate`. -/
def lowerChar (c : Char) : Char :=
  if 'A' ≤ c ∧ c ≤ 'Z' then Char.ofNat (c.toNat + 32) else c

/-- ASCII lower-casing of a string. -/
def lowerStr (s : String) : String :=
  String.mk (s.data.map lowerChar)

/-- Embedding of the `Credential` struct (config.go credential unit);
`apiSecret` stores the hash, timestamps are abstract ticks. -/
structure Credential where
  id : Int
  routeId : Int
  name : String
  apiKey : String
  apiSecret : String
  created : Nat
  lastUsed : Nat
  enabled : Bool
deriving Repr, DecidableEq

/-- Embedding of the `Auth` struct: the key-indexed credential map and the
routeId-indexed key-set secondary index. -/
structure Auth where
  credentials : List (String × Credential)
  routeAuth : List (Int × List String)
deriving Repr, DecidableEq

/-- Header-parsing phase of `Authenticate` (config.go): the header must be
non-empty, split on a single space into exactly two parts, the first part
must lower-case to `basic`, the second must base64-decode, and the decoded
payload must contain a colon separating key and secret. -/
def parseBasicAuth (b64 : String → Option String) (header : String) :
    Option (String × String) :=
  if header == "" then none
  else
    match splitStr ' ' header with
    | [scheme, payload] =>
        if lowerStr scheme == "basic" then
          match b64 payload with
          | none => none
          | some decoded => splitN2Colon decoded
        else none
    | _ => none

/-- Embedding of `Auth.Authenticate` (config.go): after the parse, the key
must exist in the store, be enabled, appear in the `routeAuth` key-set of
`routeID`, and the hash of the supplied secret must equal the stored hash;
any failure returns plain `false` with the store untouched, and on success
(only) the credential's `lastUsed` is set to `now`. -/
def authenticate (hash : String → String) (b64 : String → Option String)
    (a : Auth) (authHeader : String) (routeID : Int) (now : Nat) :
    Bool × Auth :=
  match parseBasicAuth b64 authHeader with
  | none => (false, a)
  | some (apiKey, apiSecret) =>
      match alookup a.credentials apiKey with
      | none => (false, a)
      | some cred =>
          if !cred.enabled then (false, a)
          else if !((alookup a.routeAuth routeID).getD []).contains apiKey then
            (false, a)
          else if hash apiSecret != cred.apiSecret then (false, a)
          else
            (true,
              { a with credentials :=
                  ainsert a.credentials apiKey { cred with lastUsed := now } })

/-! ### Traffic analytics (`traffic.go`) -/

/-- Embedding of the `TrafficData` struct: one sample with Go `int`
requests/errors/latency counters.  Go integer division truncates toward
zero, which is `Int.tdiv`. -/
structure TrafficData where
  timestamp : String
  requests : Int
  errors : Int
  latency : Int
deriving Repr, DecidableEq

/-- Embedding of the buffers of `TrafficAnalytics` (traffic.go lines 12-28):
`hourlyData` is the minute-level buffer (one sample per minute, capped at
60), `dailyData` the hour-level buffer (capped at 24), `weeklyData` the
day-level buffer (capped at 7). -/
structure TrafficAnalytics where
  hourlyData : List TrafficData
  dailyData : List TrafficData
  weeklyData : List TrafficData
deriving Repr, DecidableEq

/-- Sum of one integer field over a buffer, the accumulation loop of the
rollup functions. -/
def sumByTD (f : TrafficData → Int) (l : List TrafficData) : Int :=
  (l.map f).sum

/-- Embedding of `aggregateHourlyData` (traffic.go lines 115-149): when the
minute buffer is non-empty, average its requests/errors/latency with Go
integer division by the number of samples present, append that one point
(timestamped `now`) to the hour buffer, and trim the hour buffer to its
last 24 entries. -/
def aggregateHourlyData (ta : TrafficAnalytics) (now : String) :
    TrafficAnalytics :=
  if ta.hourlyData.isEmpty then ta
  else
    let count : Int := (ta.hourlyData.length : Int)
    let hourData : TrafficData :=
      { timestamp := now
        requests := Int.tdiv (sumByTD (fun d => d.requests) ta.hourlyData) count
        errors := Int.tdiv (sumByTD (fun d => d.errors) ta.hourlyData) count
        latency := Int.tdiv (sumByTD (fun d => d.latency) ta.hourlyData) count }
    let daily := ta.dailyData ++ [hourData]
    let daily' :=
      if daily.length > 24 then daily.drop (daily.length - 24) else daily
    { ta with dailyData := daily' }

/-- The single averaged point the hourly rollup produces: each field is the
field-sum over the minute buffer divided (Go truncating integer division)
by the number of samples actually present. -/
def hourPoint (ta : TrafficAnalytics) (now : String) : TrafficData :=
  { timestamp := now
    requests := Int.tdiv (sumByTD (fun d => d.requests) ta.hourlyData)
      (ta.hourlyData.length : Int)
    errors := Int.tdiv (sumByTD (fun d => d.errors) ta.hourlyData)
      (ta.hourlyData.length : Int)
    latency := Int.tdiv (sumByTD (fun d => d.latency) ta.hourlyData)
      (ta.hourlyData.length : Int) }

/-! ### Proxy forwarding path (`main.go` lines 435-494) and the catch-all
handler (`main.go` lines 902-939).

`proxyRequest` is stateful only through the in-flight counter and the stats
recorder; its observable effects per call are modelled as a trace: how often
the counter is incremented and decremented, the ordered list of
`updateStats` calls made (path and error flag), the error status written to
the client, and whether the function returned a Go error.  The upstream
forward (`proxy.ServeHTTP`) either succeeds or fails with an error message;
on failure `httputil.ReverseProxy` invokes the installed `ErrorHandler`
synchronously before `ServeHTTP` returns, after which `proxyRequest`
continues with its unconditional stats update. -/

/-- The timeout error message `net/http` produces when response headers do
not arrive in time, string-matched by the error handler. -/
def timeoutMsg : String := "net/http: timeout awaiting response headers"

/-- Observable effects of one `proxyRequest` call. -/
structure ProxyTrace where
  incrCount : Nat
  decrCount : Nat
  statsCalls : List (String × Bool)
  wroteStatus : Option Nat
  returnedErr : Bool
deriving Repr, DecidableEq

/-- Embedding of the installed `ErrorHandler` (main.go lines 471-482): one
error-flagged `updateStats` call, then 504 for the header-timeout message
and 503 otherwise. -/
def proxyErrorHandler (routePath msg : String) : (String × Bool) × Nat :=
  ((routePath, true), if msg == timeoutMsg then 504 else 503)

/-- Effects of `proxy.ServeHTTP` (main.go line 488): nothing on success; on
upstream failure the `ErrorHandler` runs synchronously. -/
def serveViaProxy (routePath : String) (upstreamError : Option String) :
    List (String × Bool) × Option Nat :=
  match upstreamError with
  | none => ([], none)
  | some msg =>
      let eh := proxyErrorHandler routePath msg
      ([eh.fst], some eh.snd)

/-- Embedding of `Proxy.proxyRequest` (main.go lines 435-494): increment the
in-flight counter, decrement it on every exit via `defer`; return a Go error
without any stats call when the target URL does not parse; otherwise serve
through the reverse proxy and then unconditionally record a success-flagged
stats update. -/
def proxyRequest (targetValid : Bool) (upstreamError : Option String)
    (routePath : String) : ProxyTrace :=
  if !targetValid then
    { incrCount := 1
      decrCount := 1
      statsCalls := []
      wroteStatus := none
      returnedErr := true }
  else
    let served := serveViaProxy routePath upstreamError
    { incrCount := 1
      decrCount := 1
      statsCalls := served.fst ++ [(routePath, false)]
      wroteStatus := served.snd
      returnedErr := false }

/-- Outcome of the catch-all proxy handler for one inbound request. -/
inductive ProxyDecision where
  | notFound
  | rateLimited
  | unauthorized
  | forwarded (r : Route)
deriving Repr, DecidableEq

/-- Embedding of `handleProxyRequest` (main.go lines 902-939): resolve the
route, apply the rate limiter when enabled, and for an auth-required route
return 401 when the `Authorization` header is empty — any non-empty header
value is accepted and the request is forwarded; `Auth.Authenticate` is never
consulted. -/
def handleProxyRequest (rl : RateLimiter) (path method authHeader : String)
    (now : ℚ) : ProxyDecision × RateLimiter :=
  match findRouteByPath rl.config.routes path method with
  | none => (ProxyDecision.notFound, rl)
  | some route =>
      if rl.config.enableRateLimit then
        let ar := allow rl route.path route.rateLimit now
        if !ar.fst then (ProxyDecision.rateLimited, ar.snd)
        else if route.authRequired && authHeader == "" then
          (ProxyDecision.unauthorized, ar.snd)
        else (ProxyDecision.forwarded route, ar.snd)
      else if route.authRequired && authHeader == "" then
        (ProxyDecision.unauthorized, rl)
      else (ProxyDecision.forwarded route, rl)

/-- The auth-required demonstration route of the claim. -/
def ordersRoute : Route :=
  { id := 1
    path := "/api/orders"
    target := "http://order-svc:8082"
    methods := ["GET", "POST"]
    rateLimit := 50
    timeout := 5
    authRequired := true
    active := true }

/-- The demonstration credential store bound to route 1. -/
def ordersAuth : Auth :=
  { credentials := [("mykey", ⟨1, 1, "orders", "mykey", "hash", 0, 0, true⟩)]
    routeAuth := [(1, ["mykey"])] }


theorem alookup_ainsert_self {α β : Type} [DecidableEq α]
    (l : List (α × β)) (k : α) (v : β) :
    alookup (ainsert l k v) k = some v := by
  induction l with
  | nil => simp [ainsert, alookup]
  | cons hd tl ih =>
      obtain ⟨k', v'⟩ := hd
      by_cases h : k' = k
      · simp [ainsert, alookup, h]
      · simp [ainsert, alookup, h, ih]

theorem alookup_ainsert_ne {α β : Type} [DecidableEq α]
    (l : List (α × β)) (k k' : α) (v : β) (h : k' ≠ k) :
    alookup (ainsert l k v) k' = alookup l k' := by
  induction l with
  | nil => simp [ainsert, alookup, Ne.symm h]
  | cons hd tl ih =>
      obtain ⟨k0, v0⟩ := hd
      by_cases h0 : k0 = k
      · subst h0
        simp [ainsert, alookup, Ne.symm h]
      · simp [ainsert, alookup, h0, ih]

theorem takeToken_clamp_eq (tb : TokenBucket) (now : ℚ) :
    (if tb.tokens + (now - tb.lastRefillTime) * tb.refillRate > tb.capacity then
      tb.capacity
    else tb.tokens + (now - tb.lastRefillTime) * tb.refillRate)
      = refilledLevel tb now := by
  unfold refilledLevel
  rcases le_or_lt (tb.tokens + (now - tb.lastRefillTime) * tb.refillRate) tb.capacity with h | h
  · rw [if_neg (by linarith), min_eq_left h]
  · rw [if_pos h, min_eq_right (le_of_lt h)]

theorem takeToken_spec (tb : TokenBucket) (now : ℚ) :
    takeToken tb now =
      (decide (1 ≤ refilledLevel tb now),
        { tb with
            tokens :=
              if refilledLevel tb now < 1 then refilledLevel tb now
              else refilledLevel tb now - 1
            lastRefillTime := now }) := by
  simp only [takeToken]
  rw [takeToken_clamp_eq]
  by_cases h : refilledLevel tb now < 1
  · rw [if_pos h, if_pos h, decide_eq_false (not_le.mpr h)]
  · rw [if_neg h, if_neg h, decide_eq_true (not_lt.mp h)]

/-- C4: with rate limiting enabled, each `allow`/`takeToken` call first
refills the bucket by elapsed seconds times `refillRate` clamped to capacity;
if the refilled level is below one token the call rejects without consuming,
otherwise it consumes exactly one token and accepts.  For a fresh path with
limit 1 and zero elapsed time between two calls, the first call is accepted
and the second rejected; with rate limiting globally disabled, `allow`
always returns `true` and changes nothing. -/
theorem allow_refill_consume_semantics :
    (∀ tb : TokenBucket, ∀ now : ℚ,
        ((takeToken tb now).fst = true ↔ 1 ≤ refilledLevel tb now)
          ∧ ((takeToken tb now).fst = false →
              (takeToken tb now).snd.tokens = refilledLevel tb now
                ∧ refilledLevel tb now < 1)
          ∧ ((takeToken tb now).fst = true →
              (takeToken tb now).snd.tokens = refilledLevel tb now - 1))
    ∧ (∀ rl : RateLimiter, ∀ path : String, ∀ now : ℚ,
        rl.config.enableRateLimit = true →
        alookup rl.buckets path = none →
        (allow rl path 1 now).fst = true
          ∧ (allow (allow rl path 1 now).snd path 1 now).fst = false)
    ∧ (∀ rl : RateLimiter, ∀ path : String, ∀ rateLimit : Int, ∀ now : ℚ,
        rl.config.enableRateLimit = false →
        allow rl path rateLimit now = (true, rl)) := by
  refine ⟨?_, ?_, ?_⟩
  · intro tb now
    rw [takeToken_spec]
    by_cases h : refilledLevel tb now < 1
    · simp [h, decide_eq_false (not_le.mpr h)]
    · simp [h, decide_eq_true (not_lt.mp h), not_lt.mp h]
  · intro rl path now hen hnone
    constructor
    · simp [allow, hen, getBucket, hnone, takeToken]
      try norm_num
    · simp [allow, hen, getBucket, hnone, takeToken, alookup_ainsert_self]
      try norm_num
  · intro rl path rateLimit now hdis
    simp [allow, hdis]

theorem allow_refill_consume_semantics_w :
    ((allow ⟨⟨true, 100, 30, []⟩, []⟩ "/a" 1 0).fst = true
      ∧ (allow (allow ⟨⟨true, 100, 30, []⟩, []⟩ "/a" 1 0).snd "/a" 1 0).fst = false)
    ∧ allow ⟨⟨false, 100, 30, []⟩, []⟩ "/a" 5 0 = (true, ⟨⟨false, 100, 30, []⟩, []⟩)
    ∧ ((takeToken ⟨1, 1, 0, 0⟩ 0).fst = true ↔ 1 ≤ refilledLevel ⟨1, 1, 0, 0⟩ 0) :=
  ⟨allow_refill_consume_semantics.2.1 ⟨⟨true, 100, 30, []⟩, []⟩ "/a" 0 rfl rfl,
   allow_refill_consume_semantics.2.2 ⟨⟨false, 100, 30, []⟩, []⟩ "/a" 5 0 rfl,
   (allow_refill_consume_semantics.1 ⟨1, 1, 0, 0⟩ 0).1⟩

theorem takeToken_wf (tb : TokenBucket) (now : ℚ)
    (hwf : WFBucket tb) (ht : tb.lastRefillTime ≤ now) :
    WFBucket (takeToken tb now).snd
      ∧ (takeToken tb now).snd.lastRefillTime = now
      ∧ (takeToken tb now).snd.capacity = tb.capacity
      ∧ (takeToken tb now).snd.refillRate = tb.refillRate := by
  obtain ⟨h0, h1, h2⟩ := hwf
  have hcap : (0 : ℚ) ≤ tb.capacity := le_trans h0 h1
  have hfill0 : 0 ≤ refilledLevel tb now := by
    apply le_min _ hcap
    have : 0 ≤ (now - tb.lastRefillTime) * tb.refillRate :=
      mul_nonneg (sub_nonneg.mpr ht) h2
    linarith
  have hfill1 : refilledLevel tb now ≤ tb.capacity := min_le_right _ _
  rw [takeToken_spec]
  refine ⟨⟨?_, ?_, h2⟩, rfl, rfl, rfl⟩
  · show 0 ≤ if refilledLevel tb now < 1 then refilledLevel tb now
      else refilledLevel tb now - 1
    split
    · exact hfill0
    · rename_i h
      linarith [not_lt.mp h]
  · show (if refilledLevel tb now < 1 then refilledLevel tb now
      else refilledLevel tb now - 1) ≤ tb.capacity
    split
    · exact hfill1
    · linarith

theorem allow_config_eq (rl : RateLimiter) (path : String) (rateLimit : Int)
    (now : ℚ) : (allow rl path rateLimit now).snd.config = rl.config := by
  by_cases hen : rl.config.enableRateLimit
  · cases hl : alookup rl.buckets path <;>
      simp [allow, hen, getBucket, hl]
  · simp [allow, Bool.of_not_eq_true hen]

theorem allow_wf (rl : RateLimiter) (path : String) (rateLimit : Int)
    (t0 now : ℚ) (h : WFLimiter t0 rl) (ht : t0 ≤ now) :
    WFLimiter now (allow rl path rateLimit now).snd := by
  obtain ⟨hdef, hb⟩ := h
  by_cases hen : rl.config.enableRateLimit
  · have hlim : (1 : Int) ≤ if rateLimit ≤ 0 then rl.config.defaultRateLimit else rateLimit := by
      by_cases hr : rateLimit ≤ 0
      · simpa [hr] using hdef
      · simpa [hr] using Int.not_le.mp hr
    have hlimQ : (1 : ℚ) ≤
        (if rateLimit ≤ 0 then (rl.config.defaultRateLimit : ℚ) else (rateLimit : ℚ)) := by
      by_cases hr : rateLimit ≤ 0
      · rw [if_pos hr]
        exact_mod_cast hdef
      · rw [if_neg hr]
        exact_mod_cast Int.not_le.mp hr
    constructor
    · rw [allow_config_eq]
      exact hdef
    · intro p b hp
      cases hl : alookup rl.buckets path with
      | some bOld =>
          simp [allow, hen, getBucket, hl] at hp
          by_cases hpq : p = path
          · subst hpq
            rw [alookup_ainsert_self] at hp
            obtain ⟨hbw, hbt, _, _⟩ :=
              takeToken_wf bOld now (hb _ _ hl).1 (le_trans (hb _ _ hl).2 ht)
            cases hp
            exact ⟨hbw, le_of_eq hbt⟩
          · rw [alookup_ainsert_ne _ _ _ _ hpq] at hp
            exact ⟨(hb _ _ hp).1, le_trans (hb _ _ hp).2 ht⟩
      | none =>
          simp [allow, hen, getBucket, hl] at hp
          by_cases hpq : p = path
          · subst hpq
            rw [alookup_ainsert_self] at hp
            have hwf0 : WFBucket
                { tokens := (if rateLimit ≤ 0 then (rl.config.defaultRateLimit : ℚ) else (rateLimit : ℚ))
                  capacity := (if rateLimit ≤ 0 then (rl.config.defaultRateLimit : ℚ) else (rateLimit : ℚ))
                  refillRate := (if rateLimit ≤ 0 then (rl.config.defaultRateLimit : ℚ) else (rateLimit : ℚ)) / 60
                  lastRefillTime := now } := by
              refine ⟨by linarith, le_refl _, div_nonneg (by linarith) (by norm_num)⟩
            obtain ⟨hbw, hbt, _, _⟩ := takeToken_wf _ now hwf0 (le_refl now)
            cases hp
            exact ⟨hbw, le_of_eq hbt⟩
          · rw [alookup_ainsert_ne _ _ _ _ hpq, alookup_ainsert_ne _ _ _ _ hpq] at hp
            exact ⟨(hb _ _ hp).1, le_trans (hb _ _ hp).2 ht⟩
  · refine ⟨by simpa [allow, Bool.of_not_eq_true hen] using hdef, ?_⟩
    intro p b hp
    simp only [allow, Bool.of_not_eq_true hen] at hp
    exact ⟨(hb _ _ hp).1, le_trans (hb _ _ hp).2 ht⟩

theorem runAllows_wf (calls : List (String × Int × ℚ)) :
    ∀ rl t0, WFLimiter t0 rl → timesMono t0 calls = true →
      ∃ t1, WFLimiter t1 (runAllows rl calls) := by
  induction calls with
  | nil => intro rl t0 h _; exact ⟨t0, h⟩
  | cons c rest ih =>
      intro rl t0 h hm
      simp only [timesMono, Bool.and_eq_true, decide_eq_true_eq] at hm
      exact ih _ c.snd.snd (allow_wf rl c.fst c.snd.fst t0 c.snd.snd h hm.1) hm.2

/-- C5: a single `takeToken` call on a well-formed bucket keeps the token
count between zero and the capacity, and so does every finite sequence of
`allow` calls with non-decreasing call times starting from a well-formed
limiter: every bucket observable afterwards satisfies
`0 ≤ tokens ≤ capacity`. -/
theorem bucket_tokens_within_capacity :
    (∀ tb : TokenBucket, ∀ now : ℚ, WFBucket tb → tb.lastRefillTime ≤ now →
        0 ≤ (takeToken tb now).snd.tokens
          ∧ (takeToken tb now).snd.tokens ≤ (takeToken tb now).snd.capacity)
    ∧ (∀ rl : RateLimiter, ∀ t0 : ℚ, ∀ calls : List (String × Int × ℚ),
        WFLimiter t0 rl → timesMono t0 calls = true →
        ∀ p b, alookup (runAllows rl calls).buckets p = some b →
          0 ≤ b.tokens ∧ b.tokens ≤ b.capacity) := by
  constructor
  · intro tb now hwf ht
    obtain ⟨⟨w0, w1, _⟩, _, hcap, _⟩ := takeToken_wf tb now hwf ht
    exact ⟨w0, by rw [hcap] at w1 ⊢; exact w1⟩
  · intro rl t0 calls hwf hm p b hp
    obtain ⟨t1, _, hall⟩ := runAllows_wf calls rl t0 hwf hm
    exact ⟨(hall p b hp).1.1, (hall p b hp).1.2.1⟩

theorem bucket_tokens_within_capacity_w :
    (0 ≤ (takeToken ⟨1, 1, 0, 0⟩ 0).snd.tokens
      ∧ (takeToken ⟨1, 1, 0, 0⟩ 0).snd.tokens ≤ (takeToken ⟨1, 1, 0, 0⟩ 0).snd.capacity)
    ∧ (0 ≤ (0 : ℚ) ∧ (0 : ℚ) ≤ 1) := by
  constructor
  · exact bucket_tokens_within_capacity.1 ⟨1, 1, 0, 0⟩ 0
      ⟨by norm_num, by norm_num, by norm_num⟩ (by norm_num)
  · exact bucket_tokens_within_capacity.2 ⟨⟨true, 100, 30, []⟩, []⟩ 0
      [("/a", 1, 0)]
      ⟨by norm_num, by intro p b hb; simp [alookup] at hb⟩
      (by norm_num [timesMono]) "/a" ⟨0, 1, 1/60, 0⟩
      (by norm_num [runAllows, allow, getBucket, takeToken, alookup, ainsert])

/-- C10: with rate limiting enabled, the first `allow` call for a path
creates its bucket full, with capacity equal to the (defaulted) limit of
that call and refill rate `capacity / 60`, and immediately runs `takeToken`
on it; every later `allow` call for the same path reuses the stored bucket
and — whatever `configuredLimit` it passes — only `takeToken` acts on it,
leaving `capacity` and `refillRate` unchanged and mutating only `tokens`
and `lastRefillTime`; buckets of other paths are untouched. -/
theorem bucket_created_once_then_reused :
    (∀ rl : RateLimiter, ∀ path : String, ∀ rateLimit : Int, ∀ now : ℚ,
        rl.config.enableRateLimit = true →
        alookup rl.buckets path = none →
        alookup (allow rl path rateLimit now).snd.buckets path =
          some (takeToken
            { tokens := (if rateLimit ≤ 0 then (rl.config.defaultRateLimit : ℚ) else (rateLimit : ℚ))
              capacity := (if rateLimit ≤ 0 then (rl.config.defaultRateLimit : ℚ) else (rateLimit : ℚ))
              refillRate := (if rateLimit ≤ 0 then (rl.config.defaultRateLimit : ℚ) else (rateLimit : ℚ)) / 60
              lastRefillTime := now } now).snd)
    ∧ (∀ rl : RateLimiter, ∀ path : String, ∀ rateLimit : Int, ∀ now : ℚ, ∀ b : TokenBucket,
        rl.config.enableRateLimit = true →
        alookup rl.buckets path = some b →
        alookup (allow rl path rateLimit now).snd.buckets path = some (takeToken b now).snd
          ∧ (takeToken b now).snd.capacity = b.capacity
          ∧ (takeToken b now).snd.refillRate = b.refillRate
          ∧ (takeToken b now).snd.lastRefillTime = now)
    ∧ (∀ rl : RateLimiter, ∀ path : String, ∀ rateLimit : Int, ∀ now : ℚ, ∀ q : String,
        q ≠ path →
        alookup (allow rl path rateLimit now).snd.buckets q = alookup rl.buckets q) := by
  refine ⟨?_, ?_, ?_⟩
  · intro rl path rateLimit now hen hnone
    simp [allow, hen, getBucket, hnone, alookup_ainsert_self]
  · intro rl path rateLimit now b hen hsome
    refine ⟨?_, ?_, ?_, ?_⟩
    · simp [allow, hen, getBucket, hsome, alookup_ainsert_self]
    · rw [takeToken_spec]
    · rw [takeToken_spec]
    · rw [takeToken_spec]
  · intro rl path rateLimit now q hq
    by_cases hen : rl.config.enableRateLimit
    · cases hl : alookup rl.buckets path with
      | some bOld =>
          simp [allow, hen, getBucket, hl, alookup_ainsert_ne _ _ _ _ hq]
      | none =>
          simp [allow, hen, getBucket, hl, alookup_ainsert_ne _ _ _ _ hq]
    · simp [allow, Bool.of_not_eq_true hen]

theorem bucket_created_once_then_reused_w :
    alookup (allow ⟨⟨true, 100, 30, []⟩, []⟩ "/a" 0 0).snd.buckets "/a" =
        some (takeToken
          { tokens := (if (0 : Int) ≤ 0 then ((100 : Int) : ℚ) else ((0 : Int) : ℚ))
            capacity := (if (0 : Int) ≤ 0 then ((100 : Int) : ℚ) else ((0 : Int) : ℚ))
            refillRate := (if (0 : Int) ≤ 0 then ((100 : Int) : ℚ) else ((0 : Int) : ℚ)) / 60
            lastRefillTime := 0 } 0).snd
      ∧ (alookup (allow ⟨⟨true, 100, 30, []⟩, [("/a", ⟨1, 1, 0, 0⟩)]⟩ "/a" 7 0).snd.buckets "/a"
            = some (takeToken ⟨1, 1, 0, 0⟩ 0).snd
          ∧ (takeToken (⟨1, 1, 0, 0⟩ : TokenBucket) 0).snd.capacity = (⟨1, 1, 0, 0⟩ : TokenBucket).capacity
          ∧ (takeToken (⟨1, 1, 0, 0⟩ : TokenBucket) 0).snd.refillRate = (⟨1, 1, 0, 0⟩ : TokenBucket).refillRate
          ∧ (takeToken (⟨1, 1, 0, 0⟩ : TokenBucket) 0).snd.lastRefillTime = 0)
      ∧ alookup (allow ⟨⟨true, 100, 30, []⟩, [("/a", ⟨1, 1, 0, 0⟩)]⟩ "/a" 7 0).snd.buckets "/b"
          = alookup (⟨⟨true, 100, 30, []⟩, [("/a", ⟨1, 1, 0, 0⟩)]⟩ : RateLimiter).buckets "/b" :=
  ⟨bucket_created_once_then_reused.1 ⟨⟨true, 100, 30, []⟩, []⟩ "/a" 0 0 rfl rfl,
   bucket_created_once_then_reused.2.1 ⟨⟨true, 100, 30, []⟩, [("/a", ⟨1, 1, 0, 0⟩)]⟩
     "/a" 7 0 ⟨1, 1, 0, 0⟩ rfl rfl,
   bucket_created_once_then_reused.2.2 ⟨⟨true, 100, 30, []⟩, [("/a", ⟨1, 1, 0, 0⟩)]⟩
     "/a" 7 0 "/b" (by decide)⟩

theorem any_method_eq_mem (methods : List String) (method : String) :
    methods.any (fun m => m == "*" || m == method)
      = decide ("*" ∈ methods ∨ method ∈ methods) := by
  rw [Bool.eq_iff_iff]
  simp only [List.any_eq_true, Bool.or_eq_true, beq_iff_eq, decide_eq_true_eq]
  constructor
  · rintro ⟨m, hm, h | h⟩
    · exact Or.inl (h ▸ hm)
    · exact Or.inr (h ▸ hm)
  · rintro (h | h)
    · exact ⟨"*", h, Or.inl rfl⟩
    · exact ⟨method, h, Or.inr rfl⟩

/-- C6: `findRouteByPath` returns exactly the first route, in registration
order, that is active, whose configured path equals the request path or is a
prefix of it followed by `/`, and whose methods contain the request method
or `*`; it returns `none` when no route qualifies.  Concretely,
`/api/users/42` with `GET` matches a route configured as `/api/users` with
methods `["GET"]`, while `DELETE` of `/api/users` does not match it. -/
theorem findRouteByPath_first_match :
    (∀ routes : List Route, ∀ path method : String,
        findRouteByPath routes path method
          = routes.find? (fun r => specRouteMatch r path method))
    ∧ findRouteByPath [demoRoute] "/api/users/42" "GET" = some demoRoute
    ∧ findRouteByPath [demoRoute] "/api/users" "DELETE" = none := by
  refine ⟨?_, by decide, by decide⟩
  intro routes path method
  induction routes with
  | nil => simp [findRouteByPath]
  | cons r rest ih =>
      have hg : (r.active && pathMatches path r.path
          && r.methods.any (fun m => m == "*" || m == method))
          = specRouteMatch r path method := by
        simp [specRouteMatch, pathMatches, any_method_eq_mem]
      rw [findRouteByPath, hg]
      cases hc : specRouteMatch r path method with
      | true =>
          rw [if_pos rfl]
          exact (@List.find?_cons_of_pos Route
            (fun r => specRouteMatch r path method) r rest hc).symm
      | false =>
          rw [if_neg (by simp),
            @List.find?_cons_of_neg Route
              (fun r => specRouteMatch r path method) r rest (by simp [hc])]
          exact ih

theorem updateStats_routeStats_self (s : Stats) (path : String) (latency : ℚ)
    (isError : Bool) (elapsed : ℚ) :
    alookup (updateStats s path latency isError elapsed).routeStats path
      = some (stepRouteStat ((alookup s.routeStats path).getD ⟨0, 0, 0⟩)
          latency isError) := by
  simp [updateStats, alookup_ainsert_self]

theorem runRouteStat_requests_avg (cs : List (ℚ × Bool)) :
    ∀ rs : RouteStat,
      (runRouteStat rs cs).requests = rs.requests + cs.length
        ∧ (0 < rs.requests + cs.length →
            (runRouteStat rs cs).avgLatency =
              (rs.avgLatency * (rs.requests : ℚ) + (cs.map Prod.fst).sum)
                / ((rs.requests : ℚ) + (cs.length : ℚ))) := by
  induction cs with
  | nil =>
      intro rs
      refine ⟨by simp [runRouteStat], ?_⟩
      intro hpos
      have hq : (0 : ℚ) < (rs.requests : ℚ) := by
        simp only [List.length_nil, Nat.add_zero] at hpos
        exact_mod_cast hpos
      rw [runRouteStat]
      field_simp
      try ring
  | cons c rest ih =>
      intro rs
      have hstep : (stepRouteStat rs c.fst c.snd).requests = rs.requests + 1 := rfl
      obtain ⟨ihr, iha⟩ := ih (stepRouteStat rs c.fst c.snd)
      constructor
      · rw [runRouteStat, ihr, hstep]
        simp only [List.length_cons]
        omega
      · intro _
        rw [runRouteStat, iha (by rw [hstep]; omega)]
        rw [hstep]
        have hn1 : (0 : ℚ) < (rs.requests : ℚ) + 1 := by positivity
        have havg : (stepRouteStat rs c.fst c.snd).avgLatency
            = (rs.avgLatency * (rs.requests : ℚ) + c.fst) / ((rs.requests : ℚ) + 1) := by
          simp only [stepRouteStat]
          push_cast
          ring_nf
        rw [havg]
        have hden : ((rs.requests : ℚ) + 1) ≠ 0 := ne_of_gt hn1
        have hden2 : ((rs.requests : ℚ) + ((rest.length : ℚ) + 1)) ≠ 0 := by
          positivity
        push_cast
        field_simp
        ring

theorem runStats_lookup_some (path : String) (cs : List (ℚ × Bool × ℚ)) :
    ∀ s : Stats, ∀ rs : RouteStat, alookup s.routeStats path = some rs →
      alookup (runStats s path cs).routeStats path
        = some (runRouteStat rs (cs.map (fun c => (c.fst, c.snd.fst)))) := by
  induction cs with
  | nil =>
      intro s rs h
      simpa [runStats, runRouteStat] using h
  | cons c rest ih =>
      intro s rs h
      rw [runStats]
      have h' := updateStats_routeStats_self s path c.fst c.snd.fst c.snd.snd
      rw [h] at h'
      simp only [Option.getD_some] at h'
      rw [ih _ _ h']
      simp [runRouteStat]

/-- C9: starting from an empty `RouteStat`, after any non-empty sequence of
`updateStats` calls for a route, the incrementally maintained `avgLatency`
equals the arithmetic mean of the recorded latencies, and the request
counter equals the number of calls — the incremental and batch-mean
definitions coincide exactly over the rationals. -/
theorem route_avgLatency_is_mean (s : Stats) (path : String)
    (cs : List (ℚ × Bool × ℚ))
    (h0 : alookup s.routeStats path = none) (hne : cs ≠ []) :
    ∃ rs : RouteStat,
      alookup (runStats s path cs).routeStats path = some rs
        ∧ rs.requests = cs.length
        ∧ rs.avgLatency = (cs.map (fun c => c.fst)).sum / (cs.length : ℚ) := by
  cases cs with
  | nil => exact absurd rfl hne
  | cons c rest =>
      rw [runStats]
      have h1 := updateStats_routeStats_self s path c.fst c.snd.fst c.snd.snd
      rw [h0] at h1
      simp only [Option.getD_none] at h1
      refine ⟨runRouteStat (stepRouteStat ⟨0, 0, 0⟩ c.fst c.snd.fst)
          (rest.map (fun x => (x.fst, x.snd.fst))),
        runStats_lookup_some path rest _ _ h1, ?_, ?_⟩
      · obtain ⟨hr, _⟩ := runRouteStat_requests_avg
          (rest.map (fun x => (x.fst, x.snd.fst)))
          (stepRouteStat ⟨0, 0, 0⟩ c.fst c.snd.fst)
        rw [hr]
        simp [stepRouteStat]
        omega
      · obtain ⟨hr, ha⟩ := runRouteStat_requests_avg
          (rest.map (fun x => (x.fst, x.snd.fst)))
          (stepRouteStat ⟨0, 0, 0⟩ c.fst c.snd.fst)
        have hreq : (stepRouteStat ⟨0, 0, 0⟩ c.fst c.snd.fst).requests = 1 := rfl
        rw [ha (by rw [hreq]; omega)]
        have havg : (stepRouteStat ⟨0, 0, 0⟩ c.fst c.snd.fst).avgLatency = c.fst := by
          simp [stepRouteStat]
        rw [havg, hreq]
        have hlen : ((rest.length : ℚ) + 1) ≠ 0 := by positivity
        have hms : List.map (Prod.fst ∘ fun x : ℚ × Bool × ℚ => (x.1, x.2.1)) rest
            = List.map (fun x => x.1) rest := by
          simp [Function.comp]
        simp only [List.map_map, List.map_cons, List.sum_cons, List.length_map,
          List.length_cons, hms]
        push_cast
        rw [mul_one, add_comm (1 : ℚ) (rest.length : ℚ)]

theorem route_avgLatency_is_mean_w :
    ∃ rs : RouteStat,
      alookup (runStats initStats "/r" [(2, false, 1), (4, false, 1)]).routeStats "/r"
          = some rs
        ∧ rs.requests = 2
        ∧ rs.avgLatency = 3 := by
  obtain ⟨rs, h1, h2, h3⟩ :=
    route_avgLatency_is_mean initStats "/r" [(2, false, 1), (4, false, 1)] rfl (by simp)
  refine ⟨rs, h1, by simpa using h2, ?_⟩
  rw [h3]
  norm_num

theorem alookup_mem {α β : Type} [DecidableEq α] (l : List (α × β)) (k : α) (v : β)
    (h : alookup l k = some v) : (k, v) ∈ l := by
  induction l with
  | nil => simp [alookup] at h
  | cons hd rest ih =>
      obtain ⟨k0, v0⟩ := hd
      by_cases hk : k0 = k
      · subst hk
        rw [alookup, if_pos rfl] at h
        cases h
        exact List.mem_cons_self _ _
      · rw [alookup, if_neg hk] at h
        exact List.mem_cons_of_mem _ (ih h)

theorem mem_ainsert {α β : Type} [DecidableEq α] (l : List (α × β)) (k : α) (v : β)
    (kv : α × β) (h : kv ∈ ainsert l k v) : kv = (k, v) ∨ kv ∈ l := by
  induction l with
  | nil =>
      rw [ainsert] at h
      exact Or.inl (List.mem_singleton.mp h)
  | cons hd rest ih =>
      obtain ⟨k0, v0⟩ := hd
      by_cases hk : k0 = k
      · subst hk
        rw [ainsert, if_pos rfl] at h
        rcases List.mem_cons.mp h with h | h
        · exact Or.inl h
        · exact Or.inr (List.mem_cons_of_mem _ h)
      · rw [ainsert, if_neg hk] at h
        rcases List.mem_cons.mp h with h | h
        · exact Or.inr (h ▸ List.mem_cons_self _ _)
        · rcases ih h with h' | h'
          · exact Or.inl h'
          · exact Or.inr (List.mem_cons_of_mem _ h')

theorem updateStats_wf (s : Stats) (path : String) (lat : ℚ) (err : Bool)
    (el : ℚ) (h : WFStats s) : WFStats (updateStats s path lat err el) := by
  obtain ⟨h0, h1, hm⟩ := h
  have hrs0 : ((alookup s.routeStats path).getD ⟨0, 0, 0⟩).errors
      ≤ ((alookup s.routeStats path).getD ⟨0, 0, 0⟩).requests := by
    cases hl : alookup s.routeStats path with
    | none => simp
    | some v =>
        simpa using hm _ (alookup_mem _ _ _ hl)
  have hstep : (stepRouteStat ((alookup s.routeStats path).getD ⟨0, 0, 0⟩) lat err).errors
      ≤ (stepRouteStat ((alookup s.routeStats path).getD ⟨0, 0, 0⟩) lat err).requests := by
    cases err <;> simp [stepRouteStat] <;> omega
  have hpos : 0 < ((stepRouteStat ((alookup s.routeStats path).getD ⟨0, 0, 0⟩)
      lat err).requests : ℚ) := by
    exact_mod_cast Nat.succ_pos ((alookup s.routeStats path).getD ⟨0, 0, 0⟩).requests
  refine ⟨?_, ?_, ?_⟩
  · cases err
    · simpa [updateStats] using h0
    · simp only [updateStats, if_true]
      exact div_nonneg (by positivity) (le_of_lt hpos)
  · cases err
    · simpa [updateStats] using h1
    · simp only [updateStats, if_true]
      rw [div_le_one hpos]
      exact_mod_cast hstep
  · intro kv hkv
    simp only [updateStats] at hkv
    rcases mem_ainsert _ _ _ _ hkv with heq | hmem
    · rw [heq]
      exact hstep
    · exact hm _ hmem

theorem runStatsCalls_wf (calls : List (String × ℚ × Bool × ℚ)) :
    ∀ s : Stats, WFStats s → WFStats (runStatsCalls s calls) := by
  induction calls with
  | nil =>
      intro s h
      simpa [runStatsCalls] using h
  | cons c rest ih =>
      intro s h
      rw [runStatsCalls]
      exact ih _ (updateStats_wf _ _ _ _ _ h)

theorem sumErrors_le_sumRequests (l : List (String × RouteStat))
    (h : ∀ kv ∈ l, kv.snd.errors ≤ kv.snd.requests) :
    sumErrors l ≤ sumRequests l := by
  induction l with
  | nil => simp [sumErrors, sumRequests]
  | cons kv rest ih =>
      have h1 := h kv (List.mem_cons_self _ _)
      have h2 := ih (fun x hx => h x (List.mem_cons_of_mem _ hx))
      simp only [sumErrors, sumRequests, List.map_cons, List.sum_cons] at h2 ⊢
      omega

/-- C3 (amended): the `ErrorRate` reported by the stats snapshot is not the
global errors/requests ratio; it is the per-route ratio of the route that
received the most recent error-flagged `updateStats` call, and it is left
unchanged by non-error calls.  It is never negative, never exceeds one, and
total errors never exceed total requests across all routes. -/
theorem errorRate_last_error_route_ratio :
    (∀ s : Stats, ∀ path : String, ∀ latency elapsed : ℚ,
        (updateStats s path latency false elapsed).errorRate = s.errorRate)
    ∧ (∀ s : Stats, ∀ path : String, ∀ latency elapsed : ℚ,
        (updateStats s path latency true elapsed).errorRate =
          (((stepRouteStat ((alookup s.routeStats path).getD ⟨0, 0, 0⟩) latency true).errors : ℚ)
            / ((stepRouteStat ((alookup s.routeStats path).getD ⟨0, 0, 0⟩) latency true).requests : ℚ)))
    ∧ (∀ calls : List (String × ℚ × Bool × ℚ),
        0 ≤ (runStatsCalls initStats calls).errorRate
          ∧ (runStatsCalls initStats calls).errorRate ≤ 1
          ∧ sumErrors (runStatsCalls initStats calls).routeStats
              ≤ sumRequests (runStatsCalls initStats calls).routeStats) := by
  refine ⟨?_, ?_, ?_⟩
  · intro s path latency elapsed
    simp [updateStats]
  · intro s path latency elapsed
    simp [updateStats]
  · intro calls
    have hwf : WFStats (runStatsCalls initStats calls) :=
      runStatsCalls_wf calls initStats
        ⟨le_refl 0, by norm_num [initStats], by intro kv hkv; simp [initStats] at hkv⟩
    exact ⟨hwf.1, hwf.2.1, sumErrors_le_sumRequests _ hwf.2.2⟩

/-- C3 counterexample: after an error-flagged call on route `a` followed by
a successful call on route `b`, the reported `ErrorRate` is `1` (route `a`'s
ratio), while the global ratio of total errors to total requests is `1/2` —
the claim's equation fails on this input. -/
theorem errorRate_not_global_ratio_cex :
    (runStatsCalls initStats [("a", 1, true, 1), ("b", 1, false, 1)]).errorRate
      ≠ ((sumErrors (runStatsCalls initStats
            [("a", 1, true, 1), ("b", 1, false, 1)]).routeStats : ℚ)
          / (sumRequests (runStatsCalls initStats
            [("a", 1, true, 1), ("b", 1, false, 1)]).routeStats : ℚ)) := by
  norm_num [runStatsCalls, updateStats, stepRouteStat, initStats, alookup,
    ainsert, sumErrors, sumRequests, sumWeighted,
    (show ("a" : String) ≠ "b" from by decide)]

/-- C7: for every hash function and base64 decoder, `authenticate` returns
`true` iff the header parses as `Basic <base64>` with payload `key:secret`,
the key exists in the store, is enabled, is bound to the requested route,
and the hash of the supplied secret equals the stored hash; every failing
case returns plain `false` and leaves the store untouched; on success (and
only then) the credential's `lastUsed` is set to the current time.  In
particular a disabled credential fails even with a correct key/secret, and
a credential bound to a different route fails. -/
theorem authenticate_protocol (hash : String → String)
    (b64 : String → Option String) (a : Auth) (header : String)
    (routeID : Int) (now : Nat) :
    ((authenticate hash b64 a header routeID now).fst = true ↔
        ∃ apiKey apiSecret cred,
          parseBasicAuth b64 header = some (apiKey, apiSecret)
            ∧ alookup a.credentials apiKey = some cred
            ∧ cred.enabled = true
            ∧ ((alookup a.routeAuth routeID).getD []).contains apiKey = true
            ∧ hash apiSecret = cred.apiSecret)
      ∧ ((authenticate hash b64 a header routeID now).fst = false →
          (authenticate hash b64 a header routeID now).snd = a)
      ∧ (∀ apiKey apiSecret cred,
          parseBasicAuth b64 header = some (apiKey, apiSecret) →
          alookup a.credentials apiKey = some cred →
          ((authenticate hash b64 a header routeID now).fst = true →
            (authenticate hash b64 a header routeID now).snd =
              { a with credentials :=
                  ainsert a.credentials apiKey { cred with lastUsed := now } })
            ∧ (cred.enabled = false →
                (authenticate hash b64 a header routeID now).fst = false)
            ∧ (((alookup a.routeAuth routeID).getD []).contains apiKey = false →
                (authenticate hash b64 a header routeID now).fst = false)) := by
  cases hp : parseBasicAuth b64 header with
  | none =>
      refine ⟨by simp [authenticate, hp], by simp [authenticate, hp], ?_⟩
      intro apiKey apiSecret cred hpp
      cases hpp
  | some ks =>
      obtain ⟨k, s⟩ := ks
      cases hc : alookup a.credentials k with
      | none =>
          refine ⟨?_, by simp [authenticate, hp, hc], ?_⟩
          · simp only [authenticate, hp, hc]
            constructor
            · intro h
              cases h
            · rintro ⟨k', s', cred, hpp, hcc, -⟩
              cases hpp
              rw [hc] at hcc
              cases hcc
          · intro apiKey apiSecret cred hpp hcc
            cases hpp
            rw [hc] at hcc
            cases hcc
      | some cred =>
          by_cases he : cred.enabled = true
          · by_cases hcont : ((alookup a.routeAuth routeID).getD []).contains k = true
            · by_cases hh : hash s = cred.apiSecret
              · have hred : authenticate hash b64 a header routeID now = (true, { a with credentials := ainsert a.credentials k { cred with lastUsed := now } }) := by
                  simp only [authenticate, hp, hc, he, hcont, hh, Bool.not_true,
                    bne_self_eq_false, Bool.false_eq_true, if_false]
                refine ⟨?_, ?_, ?_⟩
                · rw [hred]
                  exact ⟨fun _ => ⟨k, s, cred, rfl, hc, he, hcont, hh⟩, fun _ => rfl⟩
                · rw [hred]
                  intro h
                  cases h
                · intro apiKey apiSecret cred' hpp hcc
                  cases hpp
                  rw [hc] at hcc
                  cases hcc
                  refine ⟨fun _ => by rw [hred], ?_, ?_⟩
                  · intro hdis
                    rw [hdis] at he
                    cases he
                  · intro hnb
                    rw [hnb] at hcont
                    cases hcont
              · have hbne : (hash s != cred.apiSecret) = true := by
                  simp [bne_iff_ne, hh]
                have hred : authenticate hash b64 a header routeID now = (false, a) := by
                  simp only [authenticate, hp, hc, he, hcont, hbne, Bool.not_true,
                    Bool.false_eq_true, if_false, eq_self_iff_true, if_true]
                refine ⟨?_, fun _ => by rw [hred], ?_⟩
                · rw [hred]
                  constructor
                  · intro h
                    cases h
                  · rintro ⟨k', s', cred', hpp, hcc, -, -, hhh⟩
                    cases hpp
                    rw [hc] at hcc
                    cases hcc
                    exact absurd hhh hh
                · intro apiKey apiSecret cred' hpp hcc
                  cases hpp
                  rw [hc] at hcc
                  cases hcc
                  refine ⟨?_, ?_, ?_⟩
                  · intro htrue
                    rw [hred] at htrue
                    cases htrue
                  · intro _
                    rw [hred]
                  · intro _
                    rw [hred]
            · have hcf : ((alookup a.routeAuth routeID).getD []).contains k = false := by
                revert hcont
                cases ((alookup a.routeAuth routeID).getD []).contains k <;> simp
              have hred : authenticate hash b64 a header routeID now = (false, a) := by
                simp only [authenticate, hp, hc, he, hcf, Bool.not_true, Bool.not_false,
                  Bool.false_eq_true, if_false, eq_self_iff_true, if_true]
              refine ⟨?_, fun _ => by rw [hred], ?_⟩
              · rw [hred]
                constructor
                · intro h
                  cases h
                · rintro ⟨k', s', cred', hpp, hcc, -, hbb, -⟩
                  cases hpp
                  rw [hcf] at hbb
                  cases hbb
              · intro apiKey apiSecret cred' hpp hcc
                cases hpp
                rw [hc] at hcc
                cases hcc
                refine ⟨?_, ?_, ?_⟩
                · intro htrue
                  rw [hred] at htrue
                  cases htrue
                · intro _
                  rw [hred]
                · intro _
                  rw [hred]
          · have hef : cred.enabled = false := by
              revert he
              cases cred.enabled <;> simp
            have hred : authenticate hash b64 a header routeID now = (false, a) := by
              simp only [authenticate, hp, hc, hef, Bool.not_false, eq_self_iff_true,
                if_true]
            refine ⟨?_, fun _ => by rw [hred], ?_⟩
            · rw [hred]
              constructor
              · intro h
                cases h
              · rintro ⟨k', s', cred', hpp, hcc, hen, -, -⟩
                cases hpp
                rw [hc] at hcc
                cases hcc
                rw [hef] at hen
                cases hen
            · intro apiKey apiSecret cred' hpp hcc
              cases hpp
              rw [hc] at hcc
              cases hcc
              refine ⟨?_, ?_, ?_⟩
              · intro htrue
                rw [hred] at htrue
                cases htrue
              · intro _
                rw [hred]
              · intro _
                rw [hred]

theorem authenticate_protocol_w :
    (authenticate (fun s => String.append "H" s) (fun s => some s)
        ⟨[("mykey", ⟨1, 7, "svc", "mykey", "Hs3cret", 0, 0, true⟩)], [(7, ["mykey"])]⟩
        "Basic mykey:s3cret" 7 42).fst = true
      ∧ (authenticate (fun s => String.append "H" s) (fun s => some s)
          ⟨[("mykey", ⟨1, 7, "svc", "mykey", "Hs3cret", 0, 0, true⟩)], [(7, ["mykey"])]⟩
          "Basic mykey:s3cret" 7 42).snd
        = ⟨[("mykey", ⟨1, 7, "svc", "mykey", "Hs3cret", 0, 42, true⟩)], [(7, ["mykey"])]⟩
      ∧ (authenticate (fun s => String.append "H" s) (fun s => some s)
          ⟨[("mykey", ⟨1, 7, "svc", "mykey", "Hs3cret", 0, 0, false⟩)], [(7, ["mykey"])]⟩
          "Basic mykey:s3cret" 7 42).fst = false
      ∧ (authenticate (fun s => String.append "H" s) (fun s => some s)
          ⟨[("mykey", ⟨1, 7, "svc", "mykey", "Hs3cret", 0, 0, true⟩)], [(7, ["mykey"])]⟩
          "Basic mykey:s3cret" 8 42).fst = false := by
  have T := authenticate_protocol (fun s => String.append "H" s) (fun s => some s)
    ⟨[("mykey", ⟨1, 7, "svc", "mykey", "Hs3cret", 0, 0, true⟩)], [(7, ["mykey"])]⟩
    "Basic mykey:s3cret" 7 42
  have TD := authenticate_protocol (fun s => String.append "H" s) (fun s => some s)
    ⟨[("mykey", ⟨1, 7, "svc", "mykey", "Hs3cret", 0, 0, false⟩)], [(7, ["mykey"])]⟩
    "Basic mykey:s3cret" 7 42
  have T8 := authenticate_protocol (fun s => String.append "H" s) (fun s => some s)
    ⟨[("mykey", ⟨1, 7, "svc", "mykey", "Hs3cret", 0, 0, true⟩)], [(7, ["mykey"])]⟩
    "Basic mykey:s3cret" 8 42
  have h1 : (authenticate (fun s => String.append "H" s) (fun s => some s)
      ⟨[("mykey", ⟨1, 7, "svc", "mykey", "Hs3cret", 0, 0, true⟩)], [(7, ["mykey"])]⟩
      "Basic mykey:s3cret" 7 42).fst = true :=
    T.1.mpr ⟨"mykey", "s3cret", ⟨1, 7, "svc", "mykey", "Hs3cret", 0, 0, true⟩,
      by decide, by decide, rfl, by decide, by decide⟩
  refine ⟨h1, ?_, ?_, ?_⟩
  · have h2 := (T.2.2 "mykey" "s3cret" ⟨1, 7, "svc", "mykey", "Hs3cret", 0, 0, true⟩
      (by decide) (by decide)).1 h1
    exact h2.trans (by decide)
  · exact (TD.2.2 "mykey" "s3cret" ⟨1, 7, "svc", "mykey", "Hs3cret", 0, 0, false⟩
      (by decide) (by decide)).2.1 rfl
  · exact (T8.2.2 "mykey" "s3cret" ⟨1, 7, "svc", "mykey", "Hs3cret", 0, 0, true⟩
      (by decide) (by decide)).2.2 (by decide)

/-- C8: for a non-empty minute buffer, one hourly rollup appends exactly one
point to the hour buffer whose requests, errors and latency are the sums of
the samples actually present divided (Go integer division) by the count of
samples present — never by the nominal capacity 60; the hour buffer is
trimmed to at most 24 points, dropping the oldest on overflow, and the other
buffers are untouched.  With exactly 60 minute samples the divisor is 60. -/
theorem hourly_rollup_appends_average (ta : TrafficAnalytics) (now : String)
    (hne : ta.hourlyData ≠ []) :
    (aggregateHourlyData ta now).hourlyData = ta.hourlyData
      ∧ (aggregateHourlyData ta now).weeklyData = ta.weeklyData
      ∧ (aggregateHourlyData ta now).dailyData.getLast? = some (hourPoint ta now)
      ∧ (aggregateHourlyData ta now).dailyData.length
          = min (ta.dailyData.length + 1) 24
      ∧ (ta.dailyData.length < 24 →
          (aggregateHourlyData ta now).dailyData
            = ta.dailyData ++ [hourPoint ta now])
      ∧ (ta.dailyData.length = 24 →
          (aggregateHourlyData ta now).dailyData
            = ta.dailyData.drop 1 ++ [hourPoint ta now])
      ∧ (ta.hourlyData.length = 60 →
          (aggregateHourlyData ta now).dailyData.getLast? =
            some { timestamp := now
                   requests := Int.tdiv (sumByTD (fun d => d.requests) ta.hourlyData) 60
                   errors := Int.tdiv (sumByTD (fun d => d.errors) ta.hourlyData) 60
                   latency := Int.tdiv (sumByTD (fun d => d.latency) ta.hourlyData) 60 }) := by
  have hie : ta.hourlyData.isEmpty = false := by
    cases hl : ta.hourlyData with
    | nil => exact absurd hl hne
    | cons x xs => rfl
  simp only [aggregateHourlyData, hie, Bool.false_eq_true, if_false, hourPoint,
    List.length_append, List.length_cons, List.length_nil, Nat.zero_add]
  refine ⟨trivial, trivial, ?_, ?_, ?_, ?_, ?_⟩
  · by_cases h24 : ta.dailyData.length + 1 > 24
    · rw [if_pos h24, List.drop_append_of_le_length (by omega)]
      exact List.getLast?_concat _
    · rw [if_neg h24]
      exact List.getLast?_concat _
  · by_cases h24 : ta.dailyData.length + 1 > 24
    · rw [if_pos h24, List.length_drop, List.length_append, List.length_cons,
        List.length_nil]
      omega
    · rw [if_neg h24, List.length_append, List.length_cons, List.length_nil]
      omega
  · intro hlt
    rw [if_neg (by omega)]
  · intro heq
    rw [if_pos (by omega), List.drop_append_of_le_length (by omega), heq]
  · intro h60
    rw [h60]
    by_cases h24 : ta.dailyData.length + 1 > 24
    · rw [if_pos h24, List.drop_append_of_le_length (by omega)]
      rw [List.getLast?_concat]
      simp [h60]
    · rw [if_neg h24, List.getLast?_concat]
      simp [h60]

theorem hourly_rollup_appends_average_w :
    (aggregateHourlyData ⟨[⟨"t", 4, 2, 6⟩, ⟨"t", 2, 0, 0⟩], [], []⟩ "h").hourlyData
        = [⟨"t", 4, 2, 6⟩, ⟨"t", 2, 0, 0⟩]
      ∧ (aggregateHourlyData ⟨[⟨"t", 4, 2, 6⟩, ⟨"t", 2, 0, 0⟩], [], []⟩ "h").dailyData
        = [⟨"h", 3, 1, 3⟩] := by
  have h := hourly_rollup_appends_average ⟨[⟨"t", 4, 2, 6⟩, ⟨"t", 2, 0, 0⟩], [], []⟩ "h"
    (by simp)
  refine ⟨h.1, ?_⟩
  have h5 := h.2.2.2.2.1 (by simp)
  rw [h5]
  decide

/-- C1 evidence: the in-flight counter is incremented and decremented
exactly once on every exit path, and on the success path `updateStats` runs
exactly once — but on the upstream-timeout, upstream-unavailable and
connection-failure paths `updateStats` runs twice: once with the error flag
from the `ErrorHandler` and once more, success-flagged, after `ServeHTTP`
returns.  The exactly-once stats claim fails on the code. -/
theorem proxyRequest_stats_twice_on_error :
    (∀ targetValid : Bool, ∀ upstreamError : Option String, ∀ routePath : String,
        (proxyRequest targetValid upstreamError routePath).incrCount = 1
          ∧ (proxyRequest targetValid upstreamError routePath).decrCount = 1)
      ∧ (proxyRequest true none "/api/users").statsCalls = [("/api/users", false)]
      ∧ (proxyRequest true (some timeoutMsg) "/api/users").statsCalls
          = [("/api/users", true), ("/api/users", false)]
      ∧ (proxyRequest true (some timeoutMsg) "/api/users").statsCalls.length = 2
      ∧ (proxyRequest true (some "dial tcp: connection refused") "/api/users").statsCalls.length = 2
      ∧ (proxyRequest true (some timeoutMsg) "/api/users").wroteStatus = some 504
      ∧ (proxyRequest true (some "dial tcp: connection refused") "/api/users").wroteStatus
          = some 503 := by
  refine ⟨?_, by decide, by decide, by decide, by decide, by decide, by decide⟩
  intro targetValid upstreamError routePath
  cases targetValid <;> cases upstreamError <;>
    simp [proxyRequest, serveViaProxy, proxyErrorHandler]

/-- C2 evidence: on the auth-required route, a request without an
`Authorization` header gets 401 and is not forwarded, but a request bearing
the unparseable header `"garbage"` is forwarded even though
`authenticate` returns `false` for that header under every hash function and
base64 decoder — the handler never calls the credential store. -/
theorem handleProxyRequest_skips_authenticate :
    (handleProxyRequest ⟨⟨true, 100, 30, [ordersRoute]⟩, []⟩
        "/api/orders" "GET" "" 0).fst = ProxyDecision.unauthorized
      ∧ (handleProxyRequest ⟨⟨true, 100, 30, [ordersRoute]⟩, []⟩
          "/api/orders" "GET" "garbage" 0).fst = ProxyDecision.forwarded ordersRoute
      ∧ (∀ hash : String → String, ∀ b64 : String → Option String, ∀ now : Nat,
          (authenticate hash b64 ordersAuth "garbage" 1 now).fst = false) := by
  refine ⟨?_, ?_, ?_⟩
  · norm_num [handleProxyRequest, findRouteByPath, pathMatches, ordersRoute,
      allow, getBucket, takeToken, alookup, ainsert]
  · norm_num [handleProxyRequest, findRouteByPath, pathMatches, ordersRoute,
      allow, getBucket, takeToken, alookup, ainsert,
      (show ("garbage" : String) ≠ "" from by decide)]
  · intro hash b64 now
    have hparse : parseBasicAuth b64 "garbage" = none := by
      simp only [parseBasicAuth]
      rw [if_neg (by decide)]
      have : splitStr ' ' "garbage" = ["garbage"] := by decide
      rw [this]
    rw [authenticate, hparse]

end ApiGateway
